import Mathlib

/-!
Verification of the URL-shortener backend (Express + Postgres).

The embedding models:
* the `links` table created by `initDb` in `db.js` (columns
  `id SERIAL PRIMARY KEY, code UNIQUE NOT NULL, url NOT NULL,
  created_at DEFAULT NOW(), last_clicked_at NULL, click_count DEFAULT 0`)
  as a list of rows plus a next-serial counter;
* each SQL statement issued by the handlers in `index.js` as a function on
  that state;
* the HTTP handlers `POST /api/links`, `DELETE /api/links/:code`,
  `GET /api/links/:code` and the redirect route `GET /:code` as functions
  returning a response value and the new state;
* the code generator `generateCode` / `generateUniqueCode`, with the calls
  to `Math.random` supplied as explicit inputs;
* the redirect handler additionally as a two-phase task (its SELECT and its
  UPDATE are separate queries), so that interleavings of concurrent
  redirects can be examined.

Timestamps (`NOW()`) are supplied as explicit `Nat` arguments.  The click
counter column is `INTEGER`, modelled as `Int`.  `isValidUrl` delegates to
the host platform's `URL` parser, so the handlers take the url validator as
a function parameter.
-/

namespace UrlShort

/-- A row of the `links` table (see `initDb` in `db.js`). -/
structure Row where
  id : Nat
  code : String
  url : String
  createdAt : Nat
  lastClickedAt : Option Nat
  clickCount : Int
  deriving Repr, DecidableEq

/-- The database state: table contents plus the next value of the
`SERIAL` id column. -/
structure Db where
  rows : List Row
  nextId : Nat
  deriving Repr, DecidableEq

/-- `SELECT ... FROM links WHERE code = $1` (first matching row). -/
def findByCode : List Row → String → Option Row
  | [], _ => none
  | r :: rs, c => if r.code = c then some r else findByCode rs c

/-- `rowCount > 0` for a `SELECT 1 FROM links WHERE code = $1`. -/
def existsCode (rows : List Row) (c : String) : Bool :=
  (findByCode rows c).isSome

/-- `DELETE FROM links WHERE code = $1`: the surviving rows. -/
def removeByCode : List Row → String → List Row
  | [], _ => []
  | r :: rs, c => if r.code = c then removeByCode rs c else r :: removeByCode rs c

/-- The effect on one row of
`UPDATE links SET click_count = $1, last_clicked_at = NOW() WHERE id = $2`. -/
def updRow (i : Nat) (n : Int) (t : Nat) (r : Row) : Row :=
  if r.id = i then { r with clickCount := n, lastClickedAt := some t } else r

/-- `UPDATE links SET click_count = $1, last_clicked_at = NOW() WHERE id = $2`. -/
def updateClickById (rows : List Row) (i : Nat) (n : Int) (t : Nat) : List Row :=
  rows.map (updRow i n t)

/-- `GET /api/links/:code`: `SELECT ... WHERE code = $1`. -/
def selectByCode (db : Db) (c : String) : Option Row :=
  findByCode db.rows c

/-- `DELETE /api/links/:code` storage effect: whether a row was removed
(`rowCount > 0`), and the new state. -/
def deleteByCode (db : Db) (c : String) : Bool × Db :=
  (existsCode db.rows c, ⟨removeByCode db.rows c, db.nextId⟩)

/-- `INSERT INTO links (code, url) VALUES ($1, $2) RETURNING ...`.
Fails (unique-constraint violation, error `23505`) when the code is
already present; otherwise returns the inserted row (id from the serial
counter, `created_at = NOW()`, `last_clicked_at = NULL`,
`click_count = 0`) and the new state. -/
def insertLink (db : Db) (c u : String) (now : Nat) : Option (Row × Db) :=
  if existsCode db.rows c then none
  else
    let row : Row := ⟨db.nextId, c, u, now, none, 0⟩
    some (row, ⟨db.rows ++ [row], db.nextId + 1⟩)

/-- The columns fetched by the redirect handler's
`SELECT id, url, click_count FROM links WHERE code = $1`. -/
structure Snapshot where
  id : Nat
  url : String
  clickCount : Int
  deriving Repr, DecidableEq

/-- The redirect handler's SELECT. -/
def selectForRedirect (db : Db) (c : String) : Option Snapshot :=
  (selectByCode db c).map (fun r => ⟨r.id, r.url, r.clickCount⟩)

/-- The redirect handler's UPDATE, applied with the click count taken from
the snapshot: `click_count = snapshot.click_count + 1`. -/
def applyClickUpdate (db : Db) (s : Snapshot) (now : Nat) : Db :=
  ⟨updateClickById db.rows s.id (s.clickCount + 1) now, db.nextId⟩

/-- Responses of the redirect route `GET /:code`. -/
inductive RedirectResult
  | redirect (url : String)
  | notFound
  deriving Repr, DecidableEq

/-- The redirect route `GET /:code([A-Za-z0-9]{6,8})`, run to completion
with no interleaved request: SELECT the row, 404 when absent, otherwise
UPDATE the counter and answer 302 to the stored url. -/
def recordClickAndResolve (db : Db) (c : String) (now : Nat) : RedirectResult × Db :=
  match selectForRedirect db c with
  | none => (.notFound, db)
  | some s => (.redirect s.url, applyClickUpdate db s now)

/-- A concurrent redirect request for one code is in one of three states:
about to run its SELECT, holding the SELECT's snapshot and about to run
its UPDATE, or finished. -/
inductive TaskState
  | ready
  | fetched (s : Snapshot)
  | finished
  deriving Repr, DecidableEq

/-- One database round trip of one redirect request.  The SELECT and the
UPDATE of the handler are separate queries, so they are separate steps. -/
def stepTask (db : Db) (c : String) (now : Nat) : TaskState → TaskState × Db
  | .ready =>
      match selectForRedirect db c with
      | none => (.finished, db)
      | some s => (.fetched s, db)
  | .fetched s => (.finished, applyClickUpdate db s now)
  | .finished => (.finished, db)

/-- Run the step of the scheduled task (a no-op on an out-of-range index). -/
def schedStep (c : String) (now : Nat) (st : List TaskState × Db) (i : Nat) :
    List TaskState × Db :=
  match st.1[i]? with
  | none => st
  | some ts =>
      let r := stepTask st.2 c now ts
      (st.1.set i r.1, r.2)

/-- Run a schedule (a list of task indices) over a pool of concurrent
redirect requests for code `c`. -/
def runSchedule (c : String) (now : Nat) (sched : List Nat)
    (st : List TaskState × Db) : List TaskState × Db :=
  sched.foldl (schedStep c now) st

/-- `isValidCode` character class `[A-Za-z0-9]`. -/
def isCodeChar (c : Char) : Bool :=
  ('A' ≤ c && c ≤ 'Z') || ('a' ≤ c && c ≤ 'z') || ('0' ≤ c && c ≤ '9')

/-- `isValidCode`: `/^[A-Za-z0-9]{6,8}$/.test(code)`. -/
def isValidCode (s : String) : Bool :=
  decide (6 ≤ s.length) && decide (s.length ≤ 8) && s.data.all isCodeChar

/-- The character ranges named by the spec's regex `^[A-Za-z0-9]{6,8}$`. -/
def codeClassRanges : List (Char × Char) := [('A', 'Z'), ('a', 'z'), ('0', '9')]

/-- Membership in the spec regex's character class. -/
def inRanges (c : Char) : Bool :=
  codeClassRanges.any (fun p => p.1 ≤ c && c ≤ p.2)

/-- Anchored matching of `cls{lo,lo+extra}` against the whole input:
an independent interpretation of bounded repetition of a character class,
written from the spec's regex `^[A-Za-z0-9]{6,8}$`. -/
def matchRepeat (cls : Char → Bool) : Nat → Nat → List Char → Bool
  | 0, 0, cs => cs.isEmpty
  | 0, _ + 1, [] => true
  | 0, extra + 1, ch :: cs => cls ch && matchRepeat cls 0 extra cs
  | _ + 1, _, [] => false
  | lo + 1, extra, ch :: cs => cls ch && matchRepeat cls lo extra cs

/-- The spec's regex `^[A-Za-z0-9]{6,8}$` as a matcher: between 6 and
6 + 2 characters of the class, consuming the whole string. -/
def regexCodeTest (s : String) : Bool :=
  matchRepeat inRanges 6 2 s.data

/-- The 62-character alphabet string of `generateCode`. -/
def codeAlphabet : List Char :=
  "ABCDEFGHIJKLMNOPQRSTUVWXYZabcdefghijklmnopqrstuvwxyz0123456789".data

/-- `chars.charAt(i)` on the alphabet; the handler only ever calls it with
an index below 62, so the default is never reached. -/
def charAt : List Char → Nat → Char
  | [], _ => 'A'
  | ch :: _, 0 => ch
  | _ :: cs, n + 1 => charAt cs n

/-- `generateCode`: length `6 + Math.floor(Math.random() * 3)`, each
character drawn by `Math.floor(Math.random() * chars.length)`.  The random
draws are supplied as `lenChoice` (reduced mod 3) and `pick` (reduced
mod 62). -/
def generateCode (lenChoice : Nat) (pick : Nat → Nat) : String :=
  ⟨(List.range (6 + lenChoice % 3)).map (fun i => charAt codeAlphabet (pick i % 62))⟩

/-- The retry loop of `generateUniqueCode`: `attempt` is the current value
of `attempts`, `fuel` the remaining iterations of `while (attempts < 10)`;
`gens k` is the code returned by the k-th call of `generateCode`. -/
def generateUniqueCodeFrom (db : Db) (gens : Nat → String) : Nat → Nat → Option String
  | _, 0 => none
  | attempt, fuel + 1 =>
      if existsCode db.rows (gens attempt) then
        generateUniqueCodeFrom db gens (attempt + 1) fuel
      else some (gens attempt)

/-- `generateUniqueCode`: up to 10 attempts, `none` models the
`Could not generate unique code` throw. -/
def generateUniqueCode (db : Db) (gens : Nat → String) : Option String :=
  generateUniqueCodeFrom db gens 0 10

/-- Outcomes of code allocation inside `POST /api/links`
(lines 63-77 of the handler). -/
inductive AllocResult
  | ok (code : String)
  | invalidFormat
  | collision
  | exhaustedAttempts
  deriving Repr, DecidableEq

/-- The allocator: with a preferred code, validate it (400 on bad format)
and probe for a collision (409); with none, run `generateUniqueCode`. -/
def allocateUnique (db : Db) (preferred : Option String) (gens : Nat → String) :
    AllocResult :=
  match preferred with
  | some c =>
      if isValidCode c = false then .invalidFormat
      else if existsCode db.rows c then .collision
      else .ok c
  | none =>
      match generateUniqueCode db gens with
      | some c => .ok c
      | none => .exhaustedAttempts

/-- Responses of `POST /api/links`: 201 with the inserted row, 400 for a
bad url, 400 for a bad code, 409 on collision (pre-check or `23505`), and
the 500 produced when `generateUniqueCode` throws. -/
inductive CreateResult
  | created (row : Row)
  | invalidUrl
  | invalidCodeFormat
  | codeExists
  | genFailed
  deriving Repr, DecidableEq

/-- `POST /api/links`.  `validUrl` stands for `isValidUrl` (which defers
to the platform's `URL` parser); `gens` supplies the outputs of
`generateCode`; `now` is the insert's `NOW()`. -/
def createLink (validUrl : String → Bool) (gens : Nat → String) (db : Db)
    (u : String) (c : Option String) (now : Nat) : CreateResult × Db :=
  if validUrl u = false then (.invalidUrl, db)
  else
    match c with
    | some code =>
        if isValidCode code = false then (.invalidCodeFormat, db)
        else if existsCode db.rows code then (.codeExists, db)
        else
          match insertLink db code u now with
          | some p => (.created p.1, p.2)
          | none => (.codeExists, db)
    | none =>
        match generateUniqueCode db gens with
        | none => (.genFailed, db)
        | some code =>
            match insertLink db code u now with
            | some p => (.created p.1, p.2)
            | none => (.codeExists, db)

/-- Responses of `DELETE /api/links/:code`: 204 or 404. -/
inductive DeleteResult
  | noContent
  | notFound
  deriving Repr, DecidableEq

/-- `DELETE /api/links/:code`: 204 when a row was removed (`rowCount > 0`),
else 404. -/
def deleteLink (db : Db) (c : String) : DeleteResult × Db :=
  (if (deleteByCode db c).1 then .noContent else .notFound, (deleteByCode db c).2)

/-- `GET /api/links/:code` hit payload (the stored row). -/
def getLink (db : Db) (c : String) : Option Row :=
  selectByCode db c

/-- Ledger operations, with their timestamps and inputs made explicit. -/
inductive Op
  | createOp (c u : String) (t : Nat)
  | getOp (c : String)
  | listOp
  | deleteOp (c : String)
  | clickOp (c : String) (t : Nat)

/-- State effect of one ledger operation (reads leave the state alone; a
failed insert leaves the state alone). -/
def applyOp (db : Db) : Op → Db
  | .createOp c u t =>
      match insertLink db c u t with
      | some p => p.2
      | none => db
  | .getOp _ => db
  | .listOp => db
  | .deleteOp c => (deleteByCode db c).2
  | .clickOp c t => (recordClickAndResolve db c t).2

/-- Run a sequence of ledger operations. -/
def runOps (db : Db) (ops : List Op) : Db :=
  ops.foldl applyOp db

/-- Well-formedness maintained by the schema: ids are pairwise distinct
(primary key), codes are pairwise distinct (unique constraint), ids are
below the serial counter, click counts are non-negative. -/
structure Wf (db : Db) : Prop where
  idsDistinct : db.rows.Pairwise (fun a b => a.id ≠ b.id)
  codesDistinct : db.rows.Pairwise (fun a b => a.code ≠ b.code)
  idsBound : ∀ r ∈ db.rows, r.id < db.nextId
  countsNonneg : ∀ r ∈ db.rows, 0 ≤ r.clickCount

/-- Fixture: a store holding one link `abc123` with no clicks yet. -/
def dbOneLink : Db := ⟨[⟨1, "abc123", "https://example.com/a", 0, none, 0⟩], 2⟩

/-- Fixture: a store holding two links. -/
def dbTwoLinks : Db :=
  ⟨[⟨1, "abc123", "https://example.com/a", 0, none, 0⟩,
    ⟨2, "zzzzzz", "https://example.com/b", 1, none, 3⟩], 3⟩

/-- Fixture: an empty store. -/
def dbEmpty : Db := ⟨[], 1⟩

/-- Fixture: a url validator accepting everything. -/
def passAllUrls : String → Bool := fun _ => true

/-- Fixture: a url validator accepting exactly one url. -/
def urlIsExampleA : String → Bool := fun s => s == "https://example.com/a"

/-- Fixture: a generator stream always producing `zzzzzz`. -/
def gensZ : Nat → String := fun _ => "zzzzzz"

/-- Fixture: a generator stream always producing `abc123`. -/
def gensAbc : Nat → String := fun _ => "abc123"

/-- Fixture: a generator stream producing `abc123` first, then `zzzzzz`. -/
def gensMix : Nat → String := fun i => if i = 0 then "abc123" else "zzzzzz"

theorem findByCode_mem {rows : List Row} {c : String} {r : Row}
    (h : findByCode rows c = some r) : r ∈ rows ∧ r.code = c := by
  induction rows with
  | nil => simp [findByCode] at h
  | cons a rs ih =>
      rw [findByCode] at h
      split at h
      · injection h with h2
        subst h2
        exact ⟨List.mem_cons_self _ _, by assumption⟩
      · rcases ih h with ⟨h1, h2⟩
        exact ⟨List.mem_cons_of_mem a h1, h2⟩

theorem findByCode_eq_none_iff {rows : List Row} {c : String} :
    findByCode rows c = none ↔ ∀ r ∈ rows, r.code ≠ c := by
  induction rows with
  | nil => simp [findByCode]
  | cons a rs ih =>
      rw [findByCode]
      split
      · simp only [iff_iff_implies_and_implies]
        constructor
        · intro h; cases h
        · intro h
          exact absurd (by assumption) (h a (List.mem_cons_self a rs))
      · rw [ih]
        constructor
        · intro h r hr
          rcases List.mem_cons.mp hr with rfl | hr2
          · assumption
          · exact h r hr2
        · intro h r hr
          exact h r (List.mem_cons_of_mem a hr)

theorem existsCode_false_iff {rows : List Row} {c : String} :
    existsCode rows c = false ↔ ∀ r ∈ rows, r.code ≠ c := by
  rw [existsCode]
  cases h : findByCode rows c with
  | none =>
      simpa using findByCode_eq_none_iff.mp h
  | some r =>
      simp only [Option.isSome_some]
      refine iff_of_false (by simp) ?_
      intro h2
      exact h2 r (findByCode_mem h).1 (findByCode_mem h).2

theorem existsCode_true_of_mem {rows : List Row} {c : String} {r : Row}
    (hr : r ∈ rows) (hc : r.code = c) : existsCode rows c = true := by
  cases h : existsCode rows c
  · exact absurd hc (existsCode_false_iff.mp h r hr)
  · rfl

theorem findByCode_append {l1 l2 : List Row} {c : String} :
    findByCode (l1 ++ l2) c =
      match findByCode l1 c with
      | some r => some r
      | none => findByCode l2 c := by
  induction l1 with
  | nil => simp [findByCode]
  | cons a rs ih =>
      rw [List.cons_append, findByCode, findByCode]
      split
      · rfl
      · exact ih

theorem removeByCode_self {rows : List Row} {c : String} :
    findByCode (removeByCode rows c) c = none := by
  induction rows with
  | nil => simp [removeByCode, findByCode]
  | cons a rs ih =>
      rw [removeByCode]
      split
      · exact ih
      · rw [findByCode]
        split
        · exact absurd (by assumption) (by assumption)
        · exact ih

theorem removeByCode_other {rows : List Row} {c c2 : String} (h : c2 ≠ c) :
    findByCode (removeByCode rows c) c2 = findByCode rows c2 := by
  induction rows with
  | nil => simp [removeByCode]
  | cons a rs ih =>
      rw [removeByCode]
      split
      · rw [findByCode, if_neg (by intro h2; exact h (h2.symm.trans (by assumption)))]
        exact ih
      · rw [findByCode, findByCode]
        split
        · rfl
        · exact ih

theorem removeByCode_of_absent {rows : List Row} {c : String}
    (h : ∀ r ∈ rows, r.code ≠ c) : removeByCode rows c = rows := by
  induction rows with
  | nil => rfl
  | cons a rs ih =>
      rw [removeByCode, if_neg (h a (List.mem_cons_self a rs))]
      rw [ih (fun r hr => h r (List.mem_cons_of_mem a hr))]

theorem removeByCode_subset {rows : List Row} {c : String} {r : Row}
    (h : r ∈ removeByCode rows c) : r ∈ rows := by
  induction rows with
  | nil => simp [removeByCode] at h
  | cons a rs ih =>
      rw [removeByCode] at h
      split at h
      · exact List.mem_cons_of_mem a (ih h)
      · rcases List.mem_cons.mp h with rfl | h2
        · exact List.mem_cons_self _ _
        · exact List.mem_cons_of_mem a (ih h2)

theorem removeByCode_pairwise {rows : List Row} {c : String}
    {R : Row → Row → Prop} (h : rows.Pairwise R) :
    (removeByCode rows c).Pairwise R := by
  induction rows with
  | nil => exact h
  | cons a rs ih =>
      rcases List.pairwise_cons.mp h with ⟨ha, hrs⟩
      rw [removeByCode]
      split
      · exact ih hrs
      · exact List.pairwise_cons.mpr ⟨fun r hr => ha r (removeByCode_subset hr), ih hrs⟩

theorem updRow_code {i : Nat} {n : Int} {t : Nat} {r : Row} :
    (updRow i n t r).code = r.code := by
  rw [updRow]; split <;> rfl

theorem updRow_id {i : Nat} {n : Int} {t : Nat} {r : Row} :
    (updRow i n t r).id = r.id := by
  rw [updRow]; split <;> rfl

theorem updRow_createdAt {i : Nat} {n : Int} {t : Nat} {r : Row} :
    (updRow i n t r).createdAt = r.createdAt := by
  rw [updRow]; split <;> rfl

theorem updRow_of_ne {i : Nat} {n : Int} {t : Nat} {r : Row} (h : r.id ≠ i) :
    updRow i n t r = r := by
  rw [updRow, if_neg h]

theorem updRow_of_eq {i : Nat} {n : Int} {t : Nat} {r : Row} (h : r.id = i) :
    updRow i n t r = { r with clickCount := n, lastClickedAt := some t } := by
  rw [updRow, if_pos h]

theorem findByCode_updateClickById {rows : List Row} {c : String}
    {i : Nat} {n : Int} {t : Nat} :
    findByCode (updateClickById rows i n t) c =
      (findByCode rows c).map (updRow i n t) := by
  induction rows with
  | nil => simp [updateClickById, findByCode]
  | cons a rs ih =>
      rw [updateClickById, List.map_cons, findByCode, findByCode, updRow_code]
      split
      · rfl
      · exact ih

theorem mem_id_unique {rows : List Row} {r r2 : Row}
    (hp : rows.Pairwise (fun a b => a.id ≠ b.id))
    (h1 : r ∈ rows) (h2 : r2 ∈ rows) (hid : r.id = r2.id) : r = r2 := by
  induction rows with
  | nil => simp at h1
  | cons a rs ih =>
      rcases List.pairwise_cons.mp hp with ⟨ha, hrs⟩
      rcases List.mem_cons.mp h1 with rfl | h1b
      · rcases List.mem_cons.mp h2 with rfl | h2b
        · rfl
        · exact absurd hid (ha r2 h2b)
      · rcases List.mem_cons.mp h2 with rfl | h2b
        · exact absurd hid.symm (ha r h1b)
        · exact ih hrs h1b h2b

theorem generateUniqueCodeFrom_found (db : Db) (gens : Nat → String) :
    ∀ (i attempt fuel : Nat), i < fuel →
      existsCode db.rows (gens (attempt + i)) = false →
      (∀ j, j < i → existsCode db.rows (gens (attempt + j)) = true) →
      generateUniqueCodeFrom db gens attempt fuel = some (gens (attempt + i)) := by
  intro i
  induction i with
  | zero =>
      intro attempt fuel hfuel hfree _
      match fuel, hfuel with
      | f + 1, _ =>
          rw [generateUniqueCodeFrom]
          rw [if_neg (by rw [Nat.add_zero] at hfree; rw [hfree]; exact Bool.false_ne_true)]
          rw [Nat.add_zero]
  | succ i ih =>
      intro attempt fuel hfuel hfree htaken
      match fuel, hfuel with
      | f + 1, hfuel =>
          rw [generateUniqueCodeFrom]
          rw [if_pos (by have := htaken 0 (Nat.succ_pos i); rwa [Nat.add_zero] at this)]
          have h1 : attempt + (i + 1) = attempt + 1 + i := by omega
          rw [h1] at hfree ⊢
          refine ih (attempt + 1) f (by omega) hfree ?_
          intro j hj
          have h2 : attempt + 1 + j = attempt + (j + 1) := by omega
          rw [h2]
          exact htaken (j + 1) (by omega)

theorem generateUniqueCodeFrom_exhausted (db : Db) (gens : Nat → String) :
    ∀ (fuel attempt : Nat),
      (∀ j, j < fuel → existsCode db.rows (gens (attempt + j)) = true) →
      generateUniqueCodeFrom db gens attempt fuel = none := by
  intro fuel
  induction fuel with
  | zero => intro attempt _; rfl
  | succ f ih =>
      intro attempt htaken
      rw [generateUniqueCodeFrom]
      rw [if_pos (by have := htaken 0 (Nat.succ_pos f); rwa [Nat.add_zero] at this)]
      refine ih (attempt + 1) ?_
      intro j hj
      have h2 : attempt + 1 + j = attempt + (j + 1) := by omega
      rw [h2]
      exact htaken (j + 1) (by omega)

theorem charAt_pred {p : Char → Bool} :
    ∀ (l : List Char) (n : Nat), (∀ ch ∈ l, p ch = true) → p 'A' = true →
      p (charAt l n) = true
  | [], _, _, hd => hd
  | ch :: _, 0, hl, _ => hl ch (List.mem_cons_self _ _)
  | _ :: cs, n + 1, hl, hd =>
      charAt_pred cs n (fun c hc => hl c (List.mem_cons_of_mem _ hc)) hd

theorem generateCode_valid (lenChoice : Nat) (pick : Nat → Nat) :
    isValidCode (generateCode lenChoice pick) = true := by
  have hlen : (generateCode lenChoice pick).length = 6 + lenChoice % 3 := by
    simp [generateCode, String.length]
  have hmod : lenChoice % 3 < 3 := Nat.mod_lt _ (by omega)
  have halpha : ∀ ch ∈ codeAlphabet, isCodeChar ch = true := by decide
  rw [isValidCode, hlen]
  rw [decide_eq_true (by omega : 6 ≤ 6 + lenChoice % 3)]
  rw [decide_eq_true (by omega : 6 + lenChoice % 3 ≤ 8)]
  simp only [Bool.true_and]
  rw [List.all_eq_true]
  intro ch hch
  simp only [generateCode, List.mem_map] at hch
  rcases hch with ⟨i, _, rfl⟩
  exact charAt_pred codeAlphabet _ halpha (by decide)

theorem matchRepeat_iff {cls : Char → Bool} :
    ∀ (cs : List Char) (lo extra : Nat),
      matchRepeat cls lo extra cs = true ↔
        lo ≤ cs.length ∧ cs.length ≤ lo + extra ∧ ∀ ch ∈ cs, cls ch = true := by
  intro cs
  induction cs with
  | nil =>
      intro lo extra
      match lo, extra with
      | 0, 0 => simp [matchRepeat]
      | 0, e + 1 => simp [matchRepeat]
      | l + 1, e => simp [matchRepeat]
  | cons ch cs ih =>
      intro lo extra
      match lo, extra with
      | 0, 0 =>
          simp only [matchRepeat, List.isEmpty_cons, List.length_cons]
          constructor
          · intro h; cases h
          · intro h; omega
      | 0, e + 1 =>
          rw [matchRepeat, Bool.and_eq_true, ih 0 e]
          simp only [List.length_cons, List.mem_cons]
          constructor
          · rintro ⟨hch, _, hlen, hall⟩
            refine ⟨by omega, by omega, ?_⟩
            rintro c (rfl | hc)
            · exact hch
            · exact hall c hc
          · rintro ⟨_, hlen, hall⟩
            exact ⟨hall ch (Or.inl rfl), by omega, by omega,
              fun c hc => hall c (Or.inr hc)⟩
      | l + 1, e =>
          rw [matchRepeat, Bool.and_eq_true, ih l e]
          simp only [List.length_cons, List.mem_cons]
          constructor
          · rintro ⟨hch, hlo, hlen, hall⟩
            refine ⟨by omega, by omega, ?_⟩
            rintro c (rfl | hc)
            · exact hch
            · exact hall c hc
          · rintro ⟨hlo, hlen, hall⟩
            exact ⟨hall ch (Or.inl rfl), by omega, by omega,
              fun c hc => hall c (Or.inr hc)⟩

theorem isCodeChar_eq_inRanges (ch : Char) : isCodeChar ch = inRanges ch := by
  simp [isCodeChar, inRanges, codeClassRanges, List.any_cons, List.any_nil,
    Bool.or_assoc]

theorem insertLink_of_free {db : Db} {c u : String} {t : Nat}
    (h : existsCode db.rows c = false) :
    insertLink db c u t =
      some (⟨db.nextId, c, u, t, none, 0⟩,
        ⟨db.rows ++ [⟨db.nextId, c, u, t, none, 0⟩], db.nextId + 1⟩) := by
  rw [insertLink, if_neg (by simp [h])]

theorem insertLink_of_taken {db : Db} {c u : String} {t : Nat}
    (h : existsCode db.rows c = true) : insertLink db c u t = none := by
  rw [insertLink, if_pos h]

theorem selectForRedirect_mem {db : Db} {c : String} {s : Snapshot}
    (h : selectForRedirect db c = some s) :
    ∃ r ∈ db.rows, r.code = c ∧ s = ⟨r.id, r.url, r.clickCount⟩ := by
  rw [selectForRedirect, selectByCode] at h
  cases hf : findByCode db.rows c with
  | none => rw [hf] at h; cases h
  | some r =>
      rw [hf] at h
      injection h with h2
      exact ⟨r, (findByCode_mem hf).1, (findByCode_mem hf).2, h2.symm⟩

theorem recordClick_eq_of_some {db : Db} {c : String} {t : Nat} {s : Snapshot}
    (hs : selectForRedirect db c = some s) :
    recordClickAndResolve db c t = (.redirect s.url, applyClickUpdate db s t) := by
  rw [recordClickAndResolve, hs]

theorem recordClick_eq_of_none {db : Db} {c : String} {t : Nat}
    (hs : selectForRedirect db c = none) :
    recordClickAndResolve db c t = (.notFound, db) := by
  rw [recordClickAndResolve, hs]

theorem mem_updateClickById {rows : List Row} {i : Nat} {n : Int} {t : Nat} {r2 : Row}
    (h : r2 ∈ updateClickById rows i n t) : ∃ r0 ∈ rows, r2 = updRow i n t r0 := by
  rw [updateClickById] at h
  rcases List.mem_map.mp h with ⟨r0, h0, rfl⟩
  exact ⟨r0, h0, rfl⟩

theorem insertLink_wf {db : Db} {c u : String} {t : Nat} {p : Row × Db}
    (hwf : Wf db) (h : insertLink db c u t = some p) : Wf p.2 := by
  cases hex : existsCode db.rows c with
  | true => rw [insertLink_of_taken hex] at h; cases h
  | false =>
      rw [insertLink_of_free hex] at h
      injection h with h2
      subst h2
      have habs : ∀ r ∈ db.rows, r.code ≠ c := existsCode_false_iff.mp hex
      constructor
      · rw [List.pairwise_append]
        exact ⟨hwf.idsDistinct, List.pairwise_singleton _ _,
          fun a ha b hb => by
            rw [List.mem_singleton.mp hb]
            exact Nat.ne_of_lt (hwf.idsBound a ha)⟩
      · rw [List.pairwise_append]
        exact ⟨hwf.codesDistinct, List.pairwise_singleton _ _,
          fun a ha b hb => by
            rw [List.mem_singleton.mp hb]
            exact habs a ha⟩
      · intro r hr
        rcases List.mem_append.mp hr with h1 | h1
        · exact Nat.lt_succ_of_lt (hwf.idsBound r h1)
        · rw [List.mem_singleton.mp h1]
          exact Nat.lt_succ_self _
      · intro r hr
        rcases List.mem_append.mp hr with h1 | h1
        · exact hwf.countsNonneg r h1
        · rw [List.mem_singleton.mp h1]

theorem deleteByCode_wf {db : Db} (hwf : Wf db) (c : String) :
    Wf (deleteByCode db c).2 := by
  constructor
  · exact removeByCode_pairwise hwf.idsDistinct
  · exact removeByCode_pairwise hwf.codesDistinct
  · intro r hr
    exact hwf.idsBound r (removeByCode_subset hr)
  · intro r hr
    exact hwf.countsNonneg r (removeByCode_subset hr)

theorem applyClickUpdate_wf {db : Db} (hwf : Wf db) {c : String} {s : Snapshot}
    (hs : selectForRedirect db c = some s) (t : Nat) :
    Wf (applyClickUpdate db s t) := by
  rcases selectForRedirect_mem hs with ⟨rSel, hmem, _, hseq⟩
  have hscount : s.clickCount = rSel.clickCount := by rw [hseq]
  constructor
  · rw [applyClickUpdate]
    show (updateClickById db.rows _ _ _).Pairwise _
    rw [updateClickById, List.pairwise_map]
    refine hwf.idsDistinct.imp ?_
    intro a b hab
    simpa [updRow_id] using hab
  · rw [applyClickUpdate]
    show (updateClickById db.rows _ _ _).Pairwise _
    rw [updateClickById, List.pairwise_map]
    refine hwf.codesDistinct.imp ?_
    intro a b hab
    simpa [updRow_code] using hab
  · intro r hr
    rcases mem_updateClickById hr with ⟨r0, h0, rfl⟩
    rw [updRow_id]
    exact hwf.idsBound r0 h0
  · intro r hr
    rcases mem_updateClickById hr with ⟨r0, h0, rfl⟩
    rw [updRow]
    split
    · have h1 := hwf.countsNonneg rSel hmem
      show (0 : Int) ≤ s.clickCount + 1
      rw [hscount]
      omega
    · exact hwf.countsNonneg r0 h0

theorem applyOp_wf {db : Db} (hwf : Wf db) (op : Op) : Wf (applyOp db op) := by
  cases op with
  | createOp c u t =>
      rw [applyOp]
      cases h : insertLink db c u t with
      | none => exact hwf
      | some p => exact insertLink_wf hwf h
  | getOp c => exact hwf
  | listOp => exact hwf
  | deleteOp c => exact deleteByCode_wf hwf c
  | clickOp c t =>
      rw [applyOp]
      cases hs : selectForRedirect db c with
      | none => rw [recordClick_eq_of_none hs]; exact hwf
      | some s => rw [recordClick_eq_of_some hs]; exact applyClickUpdate_wf hwf hs t

theorem applyOp_nextId (db : Db) (op : Op) : db.nextId ≤ (applyOp db op).nextId := by
  cases op with
  | createOp c u t =>
      rw [applyOp]
      cases hex : existsCode db.rows c with
      | true => rw [insertLink_of_taken hex]
      | false => rw [insertLink_of_free hex]; exact Nat.le_succ _
  | getOp c => exact le_refl _
  | listOp => exact le_refl _
  | deleteOp c => exact le_refl _
  | clickOp c t =>
      rw [applyOp]
      cases hs : selectForRedirect db c with
      | none => rw [recordClick_eq_of_none hs]
      | some s => rw [recordClick_eq_of_some hs]; exact le_refl _

theorem applyOp_absent {db : Db} {i : Nat} (hlt : i < db.nextId)
    (habs : ∀ r0 ∈ db.rows, r0.id ≠ i) (op : Op) :
    ∀ r2 ∈ (applyOp db op).rows, r2.id ≠ i := by
  cases op with
  | createOp c u t =>
      rw [applyOp]
      cases hex : existsCode db.rows c with
      | true => rw [insertLink_of_taken hex]; exact habs
      | false =>
          rw [insertLink_of_free hex]
          intro r2 hr2
          rcases List.mem_append.mp hr2 with h1 | h1
          · exact habs r2 h1
          · rw [List.mem_singleton.mp h1]
            exact fun h2 => absurd (h2 ▸ hlt) (lt_irrefl _)
  | getOp c => exact habs
  | listOp => exact habs
  | deleteOp c =>
      intro r2 hr2
      exact habs r2 (removeByCode_subset hr2)
  | clickOp c t =>
      rw [applyOp]
      cases hs : selectForRedirect db c with
      | none => rw [recordClick_eq_of_none hs]; exact habs
      | some s =>
          rw [recordClick_eq_of_some hs]
          intro r2 hr2
          rcases mem_updateClickById hr2 with ⟨r0, h0, rfl⟩
          rw [updRow_id]
          exact habs r0 h0

theorem applyOp_mono {db : Db} (hwf : Wf db) (op : Op) {r r2 : Row}
    (hr : r ∈ db.rows) (hr2 : r2 ∈ (applyOp db op).rows) (hid : r2.id = r.id) :
    r.clickCount ≤ r2.clickCount ∧ r2.createdAt = r.createdAt := by
  cases op with
  | createOp c u t =>
      rw [applyOp] at hr2
      cases hex : existsCode db.rows c with
      | true =>
          rw [insertLink_of_taken hex] at hr2
          rw [mem_id_unique hwf.idsDistinct hr2 hr hid]
          exact ⟨le_refl _, rfl⟩
      | false =>
          rw [insertLink_of_free hex] at hr2
          rcases List.mem_append.mp hr2 with h1 | h1
          · rw [mem_id_unique hwf.idsDistinct h1 hr hid]
            exact ⟨le_refl _, rfl⟩
          · exfalso
            have h2 : r2.id = db.nextId := by rw [List.mem_singleton.mp h1]
            have := hwf.idsBound r hr
            omega
  | getOp c =>
      rw [mem_id_unique hwf.idsDistinct hr2 hr hid]
      exact ⟨le_refl _, rfl⟩
  | listOp =>
      rw [mem_id_unique hwf.idsDistinct hr2 hr hid]
      exact ⟨le_refl _, rfl⟩
  | deleteOp c =>
      have h1 : r2 ∈ db.rows := removeByCode_subset hr2
      rw [mem_id_unique hwf.idsDistinct h1 hr hid]
      exact ⟨le_refl _, rfl⟩
  | clickOp c t =>
      rw [applyOp] at hr2
      cases hs : selectForRedirect db c with
      | none =>
          rw [recordClick_eq_of_none hs] at hr2
          rw [mem_id_unique hwf.idsDistinct hr2 hr hid]
          exact ⟨le_refl _, rfl⟩
      | some s =>
          rw [recordClick_eq_of_some hs] at hr2
          rcases selectForRedirect_mem hs with ⟨rSel, hmem, _, hseq⟩
          have hsid : s.id = rSel.id := by rw [hseq]
          have hscount : s.clickCount = rSel.clickCount := by rw [hseq]
          rcases mem_updateClickById hr2 with ⟨r0, h0, rfl⟩
          rw [updRow_id] at hid
          have h3 : r0 = r := mem_id_unique hwf.idsDistinct h0 hr hid
          subst h3
          by_cases hcase : r0.id = s.id
          · rw [updRow_of_eq hcase]
            have h4 : rSel = r0 :=
              mem_id_unique hwf.idsDistinct hmem h0 (by rw [← hsid, hcase])
            subst h4
            refine ⟨?_, rfl⟩
            show rSel.clickCount ≤ s.clickCount + 1
            rw [hscount]
            omega
          · rw [updRow_of_ne hcase]
            exact ⟨le_refl _, rfl⟩

theorem runOps_cons (db : Db) (op : Op) (ops : List Op) :
    runOps db (op :: ops) = runOps (applyOp db op) ops := rfl

theorem runOps_wf {db : Db} (hwf : Wf db) (ops : List Op) : Wf (runOps db ops) := by
  induction ops generalizing db with
  | nil => exact hwf
  | cons op ops ih =>
      rw [runOps_cons]
      exact ih (applyOp_wf hwf op)

theorem runOps_absent {db : Db} {i : Nat} (hlt : i < db.nextId)
    (habs : ∀ r0 ∈ db.rows, r0.id ≠ i) (ops : List Op) :
    ∀ r2 ∈ (runOps db ops).rows, r2.id ≠ i := by
  induction ops generalizing db with
  | nil => exact habs
  | cons op ops ih =>
      rw [runOps_cons]
      exact ih (lt_of_lt_of_le hlt (applyOp_nextId db op)) (applyOp_absent hlt habs op)

theorem runOps_mono {db : Db} (hwf : Wf db) (ops : List Op) {r r2 : Row}
    (hr : r ∈ db.rows) (hr2 : r2 ∈ (runOps db ops).rows) (hid : r2.id = r.id) :
    r.clickCount ≤ r2.clickCount ∧ r2.createdAt = r.createdAt := by
  induction ops generalizing db r with
  | nil =>
      rw [mem_id_unique hwf.idsDistinct hr2 hr hid]
      exact ⟨le_refl _, rfl⟩
  | cons op ops ih =>
      rw [runOps_cons] at hr2
      by_cases hpres : ∃ r1 ∈ (applyOp db op).rows, r1.id = r.id
      · rcases hpres with ⟨r1, hm1, hid1⟩
        have step := applyOp_mono hwf op hr hm1 hid1
        have rest := ih (applyOp_wf hwf op) hm1 hr2 (by rw [hid, ← hid1])
        exact ⟨le_trans step.1 rest.1, by rw [rest.2, step.2]⟩
      · push_neg at hpres
        have hlt : r.id < (applyOp db op).nextId :=
          lt_of_lt_of_le (hwf.idsBound r hr) (applyOp_nextId db op)
        exact absurd hid (runOps_absent hlt hpres ops r2 hr2)

theorem findByCode_eq_none_of_existsCode_false {rows : List Row} {c : String}
    (h : existsCode rows c = false) : findByCode rows c = none := by
  rw [existsCode] at h
  cases hf : findByCode rows c with
  | none => rfl
  | some r => rw [hf] at h; cases h

theorem createLink_some_eq (validUrl : String → Bool) (gens : Nat → String)
    (db : Db) (u c : String) (now : Nat) :
    createLink validUrl gens db u (some c) now =
      if validUrl u = false then (.invalidUrl, db)
      else if isValidCode c = false then (.invalidCodeFormat, db)
      else if existsCode db.rows c then (.codeExists, db)
      else
        match insertLink db c u now with
        | some p => (.created p.1, p.2)
        | none => (.codeExists, db) := by
  rw [createLink]

theorem createLink_none_eq (validUrl : String → Bool) (gens : Nat → String)
    (db : Db) (u : String) (now : Nat) :
    createLink validUrl gens db u none now =
      if validUrl u = false then (.invalidUrl, db)
      else
        match generateUniqueCode db gens with
        | none => (.genFailed, db)
        | some code =>
            match insertLink db code u now with
            | some p => (.created p.1, p.2)
            | none => (.codeExists, db) := by
  rw [createLink]

theorem allocateUnique_some_eq (db : Db) (gens : Nat → String) (c : String) :
    allocateUnique db (some c) gens =
      if isValidCode c = false then .invalidFormat
      else if existsCode db.rows c then .collision
      else .ok c := rfl

theorem allocateUnique_none_eq (db : Db) (gens : Nat → String) :
    allocateUnique db none gens =
      match generateUniqueCode db gens with
      | some c => .ok c
      | none => .exhaustedAttempts := rfl

/-- Claim C5: `validate` (the handler's `isValidCode`) agrees on every
string with the spec's regex `^[A-Za-z0-9]{6,8}$` (interpreted by the
independent matcher `regexCodeTest`); in particular codes of length 5 or
9 and codes containing a dash or an underscore are rejected, and
alphanumeric codes of length 6, 7 or 8 are accepted. -/
theorem C5_validate_matches_regex :
    (∀ s : String, isValidCode s = regexCodeTest s) ∧
    isValidCode "abcde" = false ∧
    isValidCode "abcdefghi" = false ∧
    isValidCode "abc-12" = false ∧
    isValidCode "abc_12" = false ∧
    isValidCode "abc123" = true ∧
    isValidCode "abcd123" = true ∧
    isValidCode "abcde123" = true := by
  refine ⟨?_, by decide, by decide, by decide, by decide, by decide, by decide,
    by decide⟩
  intro s
  have hiff : isValidCode s = true ↔ regexCodeTest s = true := by
    rw [regexCodeTest, matchRepeat_iff, isValidCode]
    simp only [Bool.and_eq_true, decide_eq_true_eq, List.all_eq_true]
    have hlen : s.length = s.data.length := rfl
    constructor
    · rintro ⟨⟨h6, h8⟩, hall⟩
      refine ⟨by omega, by omega, ?_⟩
      intro ch hch
      rw [← isCodeChar_eq_inRanges]
      exact hall ch hch
    · rintro ⟨h6, h8, hall⟩
      refine ⟨⟨by omega, by omega⟩, ?_⟩
      intro ch hch
      rw [isCodeChar_eq_inRanges]
      exact hall ch hch
  cases hv : isValidCode s with
  | true => exact (hiff.mp hv).symm
  | false =>
      cases hr : regexCodeTest s with
      | false => rfl
      | true =>
          rw [hiff.mpr hr] at hv
          cases hv

/-- Claim C1 (refuted by execution): with one stored link `abc123` at
`clickCount = 0`, two concurrent redirects that each run the handler's
SELECT before either runs its UPDATE (schedule select-A, select-B,
update-A, update-B) both finish, yet leave `clickCount = 1`, not the
prior value plus 2: the handler's separate read-then-write loses an
update, so the click-recording of the redirect path is not a single
atomic step. -/
theorem C1_lost_update :
    (runSchedule "abc123" 9 [0, 1, 0, 1]
        ([TaskState.ready, TaskState.ready], dbOneLink)).2.rows.map
        (fun r => r.clickCount) = [1] ∧
    (runSchedule "abc123" 9 [0, 1, 0, 1]
        ([TaskState.ready, TaskState.ready], dbOneLink)).1 =
      [TaskState.finished, TaskState.finished] ∧
    (1 : Int) ≠ 0 + 2 := by
  refine ⟨by decide, by decide, by decide⟩

/-- Claim C2: a single (uninterleaved) run of the redirect handler on a
stored code answers 302 with the stored url and leaves that link with
`clickCount` incremented by exactly 1 and `lastClickedAt` set to the
current time; on a code that is not stored it answers 404 and leaves the
store unchanged. -/
theorem C2_recordClickAndResolve_spec (db : Db) (c : String) (now : Nat) :
    (∀ r, selectByCode db c = some r →
      (recordClickAndResolve db c now).1 = RedirectResult.redirect r.url ∧
      selectByCode (recordClickAndResolve db c now).2 c =
        some { r with clickCount := r.clickCount + 1, lastClickedAt := some now }) ∧
    (selectByCode db c = none →
      recordClickAndResolve db c now = (.notFound, db)) := by
  constructor
  · intro r hr
    have hs : selectForRedirect db c = some ⟨r.id, r.url, r.clickCount⟩ := by
      rw [selectForRedirect, hr, Option.map_some']
    rw [recordClick_eq_of_some hs]
    refine ⟨rfl, ?_⟩
    show findByCode (updateClickById db.rows r.id (r.clickCount + 1) now) c = _
    rw [findByCode_updateClickById, show findByCode db.rows c = some r from hr,
      Option.map_some', updRow_of_eq rfl]
  · intro hr
    exact recordClick_eq_of_none (by rw [selectForRedirect, hr, Option.map_none'])

/-- Witness for C2: concrete hit and miss on the one-link store. -/
theorem C2_witness :
    (recordClickAndResolve dbOneLink "abc123" 7).1 =
      RedirectResult.redirect "https://example.com/a" ∧
    selectByCode (recordClickAndResolve dbOneLink "abc123" 7).2 "abc123" =
      some ⟨1, "abc123", "https://example.com/a", 0, some 7, 1⟩ ∧
    recordClickAndResolve dbOneLink "nothere1" 7 = (.notFound, dbOneLink) := by
  have h := C2_recordClickAndResolve_spec dbOneLink "abc123" 7
  have hm := C2_recordClickAndResolve_spec dbOneLink "nothere1" 7
  have h2 := h.1 ⟨1, "abc123", "https://example.com/a", 0, none, 0⟩ (by decide)
  exact ⟨h2.1, h2.2, hm.2 (by decide)⟩

theorem createLink_success (validUrl : String → Bool) (gens : Nat → String)
    (db : Db) (c u : String) (t : Nat) (hu : validUrl u = true)
    (hc : isValidCode c = true) (hfree : existsCode db.rows c = false) :
    createLink validUrl gens db u (some c) t =
      (.created ⟨db.nextId, c, u, t, none, 0⟩,
        ⟨db.rows ++ [⟨db.nextId, c, u, t, none, 0⟩], db.nextId + 1⟩) := by
  rw [createLink_some_eq, if_neg (by simp [hu]), if_neg (by simp [hc]),
    if_neg (by simp [hfree]), insertLink_of_free hfree]

theorem deleteLink_hit (db : Db) (c : String) (h : existsCode db.rows c = true) :
    deleteLink db c = (.noContent, ⟨removeByCode db.rows c, db.nextId⟩) := by
  show ((if existsCode db.rows c = true then DeleteResult.noContent
    else DeleteResult.notFound), (⟨removeByCode db.rows c, db.nextId⟩ : Db)) = _
  rw [if_pos h]

theorem deleteLink_miss (db : Db) (c : String) (h : existsCode db.rows c = false) :
    deleteLink db c = (.notFound, db) := by
  have hrows : removeByCode db.rows c = db.rows :=
    removeByCode_of_absent (existsCode_false_iff.mp h)
  show ((if existsCode db.rows c = true then DeleteResult.noContent
    else DeleteResult.notFound), (⟨removeByCode db.rows c, db.nextId⟩ : Db)) = _
  rw [if_neg (by simp [h]), hrows]

theorem existsCode_removeByCode_self (rows : List Row) (c : String) :
    existsCode (removeByCode rows c) c = false := by
  rw [existsCode, removeByCode_self]
  rfl

/-- Claim C3: after a `POST /api/links` with explicit code `c` succeeds,
a second `POST` with the same code and another url answers 409 with the
store unchanged, and the link stored under `c` still carries the first
url. -/
theorem C3_duplicate_create (validUrl : String → Bool) (gens gens2 : Nat → String)
    (db db1 : Db) (c url1 url2 : String) (row : Row) (t1 t2 : Nat)
    (h1 : createLink validUrl gens db url1 (some c) t1 = (.created row, db1))
    (h2 : validUrl url2 = true) :
    createLink validUrl gens2 db1 url2 (some c) t2 = (.codeExists, db1) ∧
    selectByCode db1 c = some row ∧
    row.url = url1 := by
  rw [createLink_some_eq] at h1
  by_cases hu : validUrl url1 = false
  · rw [if_pos hu] at h1
    simp at h1
  · rw [if_neg hu] at h1
    by_cases hc : isValidCode c = false
    · rw [if_pos hc] at h1
      simp at h1
    · rw [if_neg hc] at h1
      by_cases hex : existsCode db.rows c = true
      · rw [if_pos hex] at h1
        simp at h1
      · have hexf : existsCode db.rows c = false := by
          cases hx : existsCode db.rows c
          · rfl
          · exact absurd hx hex
        rw [if_neg hex, insertLink_of_free hexf] at h1
        have h1b : ((CreateResult.created (⟨db.nextId, c, url1, t1, none, 0⟩ : Row),
            (⟨db.rows ++ [⟨db.nextId, c, url1, t1, none, 0⟩], db.nextId + 1⟩ : Db)) :
            CreateResult × Db) = (.created row, db1) := h1
        rw [Prod.mk.injEq, CreateResult.created.injEq] at h1b
        obtain ⟨hrow, hdb1⟩ := h1b
        subst hrow
        subst hdb1
        have hmem : existsCode (db.rows ++ [⟨db.nextId, c, url1, t1, none, 0⟩]) c = true :=
          existsCode_true_of_mem (List.mem_append_right _ (List.mem_singleton.mpr rfl)) rfl
        refine ⟨?_, ?_, rfl⟩
        · rw [createLink_some_eq, if_neg (by simp [h2]), if_neg hc, if_pos hmem]
        · rw [selectByCode]
          show findByCode (db.rows ++ [⟨db.nextId, c, url1, t1, none, 0⟩]) c = _
          rw [findByCode_append, findByCode_eq_none_of_existsCode_false hexf]
          show findByCode [⟨db.nextId, c, url1, t1, none, 0⟩] c = _
          rw [findByCode, if_pos rfl]

/-- Witness for C3: duplicate creation of `abc123` on a concrete store. -/
theorem C3_witness :
    createLink passAllUrls gensZ
        ⟨[⟨1, "abc123", "https://example.com/a", 3, none, 0⟩], 2⟩
        "https://example.com/b" (some "abc123") 4 =
      (.codeExists, ⟨[⟨1, "abc123", "https://example.com/a", 3, none, 0⟩], 2⟩) ∧
    selectByCode ⟨[⟨1, "abc123", "https://example.com/a", 3, none, 0⟩], 2⟩ "abc123" =
      some ⟨1, "abc123", "https://example.com/a", 3, none, 0⟩ ∧
    (⟨1, "abc123", "https://example.com/a", 3, none, 0⟩ : Row).url =
      "https://example.com/a" := by
  have h := C3_duplicate_create passAllUrls gensZ gensZ dbEmpty
    ⟨[⟨1, "abc123", "https://example.com/a", 3, none, 0⟩], 2⟩ "abc123"
    "https://example.com/a" "https://example.com/b"
    ⟨1, "abc123", "https://example.com/a", 3, none, 0⟩ 3 4 (by decide) (by decide)
  exact ⟨h.1, h.2.1, h.2.2⟩

/-- Claim C4: the allocator rejects an invalid preferred code with
`InvalidFormat` and an in-use preferred code with `Collision`; with no
preferred code it probes the ledger on each of at most 10 generated
codes, returns the first free one, and fails with `ExhaustedAttempts`
when all 10 collide; every generated code passes `validate`. -/
theorem C4_allocateUnique_spec (db : Db) (gens : Nat → String) (c : String) :
    (isValidCode c = false → allocateUnique db (some c) gens = .invalidFormat) ∧
    (isValidCode c = true → existsCode db.rows c = true →
      allocateUnique db (some c) gens = .collision) ∧
    (isValidCode c = true → existsCode db.rows c = false →
      allocateUnique db (some c) gens = .ok c) ∧
    (∀ i, i < 10 → existsCode db.rows (gens i) = false →
      (∀ j, j < i → existsCode db.rows (gens j) = true) →
      allocateUnique db none gens = .ok (gens i)) ∧
    ((∀ i, i < 10 → existsCode db.rows (gens i) = true) →
      allocateUnique db none gens = .exhaustedAttempts) ∧
    (∀ lenChoice pick, isValidCode (generateCode lenChoice pick) = true) := by
  refine ⟨?_, ?_, ?_, ?_, ?_, fun lc pk => generateCode_valid lc pk⟩
  · intro h
    rw [allocateUnique_some_eq, if_pos h]
  · intro hv hex
    rw [allocateUnique_some_eq, if_neg (by simp [hv]), if_pos hex]
  · intro hv hex
    rw [allocateUnique_some_eq, if_neg (by simp [hv]), if_neg (by simp [hex])]
  · intro i hi hfree htaken
    have hfound : generateUniqueCode db gens = some (gens i) := by
      rw [generateUniqueCode,
        generateUniqueCodeFrom_found db gens i 0 10 hi
          (by rw [Nat.zero_add]; exact hfree)
          (fun j hj => by rw [Nat.zero_add]; exact htaken j hj),
        Nat.zero_add]
    rw [allocateUnique_none_eq, hfound]
  · intro h
    have hnone : generateUniqueCode db gens = none := by
      rw [generateUniqueCode]
      exact generateUniqueCodeFrom_exhausted db gens 10 0
        (fun j hj => by rw [Nat.zero_add]; exact h j hj)
    rw [allocateUnique_none_eq, hnone]

/-- Witness for C4: all five allocator outcomes on concrete inputs. -/
theorem C4_witness :
    allocateUnique dbOneLink (some "bad-c1") gensZ = .invalidFormat ∧
    allocateUnique dbOneLink (some "abc123") gensZ = .collision ∧
    allocateUnique dbOneLink (some "zzzzzz") gensZ = .ok "zzzzzz" ∧
    allocateUnique dbOneLink none gensMix = .ok "zzzzzz" ∧
    allocateUnique dbOneLink none gensAbc = .exhaustedAttempts ∧
    isValidCode (generateCode 7 (fun k => k * 5)) = true := by
  have h1 := C4_allocateUnique_spec dbOneLink gensZ "bad-c1"
  have h2 := C4_allocateUnique_spec dbOneLink gensZ "abc123"
  have h3 := C4_allocateUnique_spec dbOneLink gensZ "zzzzzz"
  have h4 := C4_allocateUnique_spec dbOneLink gensMix "zzzzzz"
  have h5 := C4_allocateUnique_spec dbOneLink gensAbc "zzzzzz"
  refine ⟨h1.1 (by decide), h2.2.1 (by decide) (by decide),
    h3.2.2.1 (by decide) (by decide), ?_, ?_, h1.2.2.2.2.2 7 (fun k => k * 5)⟩
  · exact h4.2.2.2.1 1 (by omega) (by decide)
      (fun j hj => by
        have hj0 : j = 0 := by omega
        subst hj0
        decide)
  · exact h5.2.2.2.2.1 (fun i hi => by
      show existsCode dbOneLink.rows "abc123" = true
      decide)

/-- Claim C6: with a url the validator accepts and a valid, unused code,
`POST /api/links` answers 201 with a row carrying that code and url,
`clickCount = 0` and `lastClickedAt = NULL`, and a subsequent
`GET /api/links/:code` returns the same url; a rejected url answers 400,
and an invalid code answers 400. -/
theorem C6_create_roundtrip (validUrl : String → Bool) (gens : Nat → String)
    (db : Db) (c u : String) (t : Nat)
    (hu : validUrl u = true) (hc : isValidCode c = true)
    (hfree : existsCode db.rows c = false) :
    createLink validUrl gens db u (some c) t =
      (.created ⟨db.nextId, c, u, t, none, 0⟩,
        ⟨db.rows ++ [⟨db.nextId, c, u, t, none, 0⟩], db.nextId + 1⟩) ∧
    (⟨db.nextId, c, u, t, none, 0⟩ : Row).clickCount = 0 ∧
    (⟨db.nextId, c, u, t, none, 0⟩ : Row).lastClickedAt = none ∧
    (getLink ⟨db.rows ++ [⟨db.nextId, c, u, t, none, 0⟩], db.nextId + 1⟩ c).map
      (fun r => r.url) = some u ∧
    (∀ u2, validUrl u2 = false →
      createLink validUrl gens db u2 (some c) t = (.invalidUrl, db)) ∧
    (∀ c2, isValidCode c2 = false →
      createLink validUrl gens db u (some c2) t = (.invalidCodeFormat, db)) := by
  refine ⟨createLink_success validUrl gens db c u t hu hc hfree, rfl, rfl, ?_, ?_, ?_⟩
  · rw [getLink, selectByCode]
    show (findByCode (db.rows ++ [⟨db.nextId, c, u, t, none, 0⟩]) c).map
      (fun r => r.url) = some u
    rw [findByCode_append, findByCode_eq_none_of_existsCode_false hfree]
    show (findByCode [⟨db.nextId, c, u, t, none, 0⟩] c).map (fun r => r.url) = some u
    rw [findByCode, if_pos rfl]
    rfl
  · intro u2 h
    rw [createLink_some_eq, if_pos h]
  · intro c2 h
    rw [createLink_some_eq, if_neg (by simp [hu]), if_pos h]

/-- Witness for C6: creation, readback, bad url and bad code on a
concrete store. -/
theorem C6_witness :
    createLink urlIsExampleA gensZ dbEmpty "https://example.com/a" (some "abc123") 5 =
      (.created ⟨1, "abc123", "https://example.com/a", 5, none, 0⟩,
        ⟨[⟨1, "abc123", "https://example.com/a", 5, none, 0⟩], 2⟩) ∧
    (getLink ⟨[⟨1, "abc123", "https://example.com/a", 5, none, 0⟩], 2⟩ "abc123").map
      (fun r => r.url) = some "https://example.com/a" ∧
    createLink urlIsExampleA gensZ dbEmpty "notaurl" (some "abc123") 5 =
      (.invalidUrl, dbEmpty) ∧
    createLink urlIsExampleA gensZ dbEmpty "https://example.com/a" (some "bad-c1") 5 =
      (.invalidCodeFormat, dbEmpty) := by
  have h := C6_create_roundtrip urlIsExampleA gensZ dbEmpty "abc123"
    "https://example.com/a" 5 (by decide) (by decide) (by decide)
  exact ⟨h.1, h.2.2.2.1, h.2.2.2.2.1 "notaurl" (by decide),
    h.2.2.2.2.2 "bad-c1" (by decide)⟩

/-- Claim C7: `DELETE /api/links/:code` answers 204 exactly when the code
was stored (and removes it), 404 when it was not, and never errors; so
deleting the same code twice answers 204 then 404. -/
theorem C7_delete_idempotent (db : Db) (c : String) :
    (existsCode db.rows c = true →
      (deleteLink db c).1 = DeleteResult.noContent ∧
      deleteLink (deleteLink db c).2 c = (.notFound, (deleteLink db c).2)) ∧
    (existsCode db.rows c = false →
      deleteLink db c = (.notFound, db)) := by
  constructor
  · intro h
    constructor
    · show (if existsCode db.rows c = true then DeleteResult.noContent
        else DeleteResult.notFound) = DeleteResult.noContent
      rw [if_pos h]
    · exact deleteLink_miss ⟨removeByCode db.rows c, db.nextId⟩ c
        (existsCode_removeByCode_self db.rows c)
  · intro h
    exact deleteLink_miss db c h

/-- Witness for C7: double deletion of `abc123` and deletion of a missing
code on the one-link store. -/
theorem C7_witness :
    (deleteLink dbOneLink "abc123").1 = DeleteResult.noContent ∧
    deleteLink (deleteLink dbOneLink "abc123").2 "abc123" =
      (.notFound, (deleteLink dbOneLink "abc123").2) ∧
    deleteLink dbOneLink "nothere1" = (.notFound, dbOneLink) := by
  have h := C7_delete_idempotent dbOneLink "abc123"
  have h2 := C7_delete_idempotent dbOneLink "nothere1"
  exact ⟨(h.1 (by decide)).1, (h.1 (by decide)).2, h2.2 (by decide)⟩

/-- Claim C8: create `c`, delete `c`, create `c` again with a new url —
the second creation succeeds and the code then maps to the new url: a
deleted code is immediately reusable. -/
theorem C8_code_reuse (validUrl : String → Bool) (gens : Nat → String)
    (db : Db) (c url1 url2 : String) (t1 t3 : Nat)
    (hc : isValidCode c = true) (h1 : validUrl url1 = true)
    (h2 : validUrl url2 = true) (hfree : existsCode db.rows c = false) :
    createLink validUrl gens db url1 (some c) t1 =
      (.created ⟨db.nextId, c, url1, t1, none, 0⟩,
        ⟨db.rows ++ [⟨db.nextId, c, url1, t1, none, 0⟩], db.nextId + 1⟩) ∧
    deleteLink ⟨db.rows ++ [⟨db.nextId, c, url1, t1, none, 0⟩], db.nextId + 1⟩ c =
      (.noContent,
        ⟨removeByCode (db.rows ++ [⟨db.nextId, c, url1, t1, none, 0⟩]) c,
          db.nextId + 1⟩) ∧
    createLink validUrl gens
        ⟨removeByCode (db.rows ++ [⟨db.nextId, c, url1, t1, none, 0⟩]) c,
          db.nextId + 1⟩ url2 (some c) t3 =
      (.created ⟨db.nextId + 1, c, url2, t3, none, 0⟩,
        ⟨removeByCode (db.rows ++ [⟨db.nextId, c, url1, t1, none, 0⟩]) c
          ++ [⟨db.nextId + 1, c, url2, t3, none, 0⟩], db.nextId + 2⟩) ∧
    (getLink
        ⟨removeByCode (db.rows ++ [⟨db.nextId, c, url1, t1, none, 0⟩]) c
          ++ [⟨db.nextId + 1, c, url2, t3, none, 0⟩], db.nextId + 2⟩ c).map
      (fun r => r.url) = some url2 := by
  have hmem : existsCode (db.rows ++ [⟨db.nextId, c, url1, t1, none, 0⟩]) c = true :=
    existsCode_true_of_mem (List.mem_append_right _ (List.mem_singleton.mpr rfl)) rfl
  have hfree2 : existsCode
      (removeByCode (db.rows ++ [⟨db.nextId, c, url1, t1, none, 0⟩]) c) c = false :=
    existsCode_removeByCode_self _ c
  refine ⟨createLink_success validUrl gens db c url1 t1 h1 hc hfree,
    deleteLink_hit ⟨db.rows ++ [⟨db.nextId, c, url1, t1, none, 0⟩], db.nextId + 1⟩ c hmem,
    createLink_success validUrl gens
      ⟨removeByCode (db.rows ++ [⟨db.nextId, c, url1, t1, none, 0⟩]) c, db.nextId + 1⟩
      c url2 t3 h2 hc hfree2, ?_⟩
  rw [getLink, selectByCode]
  show (findByCode
      (removeByCode (db.rows ++ [⟨db.nextId, c, url1, t1, none, 0⟩]) c
        ++ [⟨db.nextId + 1, c, url2, t3, none, 0⟩]) c).map
    (fun r => r.url) = some url2
  rw [findByCode_append, removeByCode_self]
  show (findByCode [⟨db.nextId + 1, c, url2, t3, none, 0⟩] c).map
    (fun r => r.url) = some url2
  rw [findByCode, if_pos rfl]
  rfl

/-- Witness for C8: create, delete, re-create of `abc123` on the empty
store. -/
theorem C8_witness :
    createLink passAllUrls gensZ dbEmpty "https://example.com/a" (some "abc123") 3 =
      (.created ⟨1, "abc123", "https://example.com/a", 3, none, 0⟩,
        ⟨[⟨1, "abc123", "https://example.com/a", 3, none, 0⟩], 2⟩) ∧
    deleteLink ⟨[⟨1, "abc123", "https://example.com/a", 3, none, 0⟩], 2⟩ "abc123" =
      (.noContent, ⟨[], 2⟩) ∧
    createLink passAllUrls gensZ ⟨[], 2⟩ "https://example.com/b" (some "abc123") 4 =
      (.created ⟨2, "abc123", "https://example.com/b", 4, none, 0⟩,
        ⟨[⟨2, "abc123", "https://example.com/b", 4, none, 0⟩], 3⟩) ∧
    (getLink ⟨[⟨2, "abc123", "https://example.com/b", 4, none, 0⟩], 3⟩ "abc123").map
      (fun r => r.url) = some "https://example.com/b" := by
  have h := C8_code_reuse passAllUrls gensZ dbEmpty "abc123"
    "https://example.com/a" "https://example.com/b" 3 4 (by decide) (by decide)
    (by decide) (by decide)
  exact ⟨h.1, h.2.1, h.2.2.1, h.2.2.2⟩

/-- Claim C9: over any sequence of ledger operations from a well-formed
store, well-formedness is preserved, every click count stays
non-negative, and for any surviving row (same primary-key id) the click
count never decreases and `createdAt` never changes. -/
theorem C9_invariants (db : Db) (ops : List Op) (hwf : Wf db) :
    Wf (runOps db ops) ∧
    (∀ r ∈ db.rows, ∀ r2 ∈ (runOps db ops).rows, r2.id = r.id →
      r.clickCount ≤ r2.clickCount ∧ r2.createdAt = r.createdAt) ∧
    (∀ r2 ∈ (runOps db ops).rows, 0 ≤ r2.clickCount) := by
  refine ⟨runOps_wf hwf ops, ?_,
    fun r2 h2 => (runOps_wf hwf ops).countsNonneg r2 h2⟩
  intro r hr r2 hr2 hid
  exact runOps_mono hwf ops hr hr2 hid

/-- Witness for C9: two recorded clicks on `abc123` raise its count from
0 to 2 with `createdAt` unchanged. -/
theorem C9_witness :
    Wf (runOps dbOneLink [Op.clickOp "abc123" 4, Op.clickOp "abc123" 6]) ∧
    (⟨1, "abc123", "https://example.com/a", 0, none, 0⟩ : Row).clickCount ≤
      (⟨1, "abc123", "https://example.com/a", 0, some 6, 2⟩ : Row).clickCount ∧
    (⟨1, "abc123", "https://example.com/a", 0, some 6, 2⟩ : Row).createdAt =
      (⟨1, "abc123", "https://example.com/a", 0, none, 0⟩ : Row).createdAt := by
  have hwf : Wf dbOneLink :=
    ⟨List.pairwise_singleton _ _, List.pairwise_singleton _ _, by decide, by decide⟩
  have h := C9_invariants dbOneLink [Op.clickOp "abc123" 4, Op.clickOp "abc123" 6] hwf
  have hm := h.2.1 ⟨1, "abc123", "https://example.com/a", 0, none, 0⟩ (by decide)
    ⟨1, "abc123", "https://example.com/a", 0, some 6, 2⟩ (by decide) (by decide)
  exact ⟨h.1, hm.1, hm.2⟩

/-- Claim C10: each mutating operation touches only the row of its code —
recording a click on `c` or deleting `c` leaves the row stored under any
other code unchanged, and a create touches no existing row. -/
theorem C10_frame (db : Db) (hwf : Wf db) (c c2 u : String) (hne : c2 ≠ c) (t : Nat) :
    selectByCode (recordClickAndResolve db c t).2 c2 = selectByCode db c2 ∧
    selectByCode (deleteLink db c).2 c2 = selectByCode db c2 ∧
    selectByCode (applyOp db (Op.createOp c u t)) c2 = selectByCode db c2 := by
  refine ⟨?_, ?_, ?_⟩
  · cases hs : selectForRedirect db c with
    | none => rw [recordClick_eq_of_none hs]
    | some s =>
        rw [recordClick_eq_of_some hs]
        rcases selectForRedirect_mem hs with ⟨rSel, hmem, hcode, hseq⟩
        have hsid : s.id = rSel.id := by rw [hseq]
        show findByCode (updateClickById db.rows s.id (s.clickCount + 1) t) c2 =
          findByCode db.rows c2
        rw [findByCode_updateClickById]
        cases hf : findByCode db.rows c2 with
        | none => rfl
        | some r2 =>
            have hm2 := findByCode_mem hf
            have hr2id : r2.id ≠ s.id := by
              rw [hsid]
              intro hEq
              have h3 : r2 = rSel := mem_id_unique hwf.idsDistinct hm2.1 hmem hEq
              rw [h3, hcode] at hm2
              exact hne hm2.2.symm
            show some (updRow s.id (s.clickCount + 1) t r2) = some r2
            rw [updRow_of_ne hr2id]
  · show findByCode (removeByCode db.rows c) c2 = findByCode db.rows c2
    exact removeByCode_other hne
  · rw [applyOp]
    cases hex : existsCode db.rows c with
    | true => rw [insertLink_of_taken hex]
    | false =>
        rw [insertLink_of_free hex]
        show findByCode (db.rows ++ [⟨db.nextId, c, u, t, none, 0⟩]) c2 =
          findByCode db.rows c2
        rw [findByCode_append]
        cases hf : findByCode db.rows c2 with
        | some r2 => rfl
        | none =>
            show findByCode [⟨db.nextId, c, u, t, none, 0⟩] c2 = none
            rw [findByCode, if_neg (fun hEq => hne hEq.symm), findByCode]

/-- Witness for C10: on a two-link store, mutating `abc123` leaves the
row of `zzzzzz` unchanged. -/
theorem C10_witness :
    selectByCode (recordClickAndResolve dbTwoLinks "abc123" 9).2 "zzzzzz" =
      selectByCode dbTwoLinks "zzzzzz" ∧
    selectByCode (deleteLink dbTwoLinks "abc123").2 "zzzzzz" =
      selectByCode dbTwoLinks "zzzzzz" ∧
    selectByCode (applyOp dbTwoLinks (Op.createOp "abc123" "https://example.com/c" 9))
        "zzzzzz" = selectByCode dbTwoLinks "zzzzzz" := by
  have hwf : Wf dbTwoLinks := by
    refine ⟨?_, ?_, by decide, by decide⟩
    · show List.Pairwise (fun a b => a.id ≠ b.id)
        ([⟨1, "abc123", "https://example.com/a", 0, none, 0⟩,
          ⟨2, "zzzzzz", "https://example.com/b", 1, none, 3⟩] : List Row)
      rw [List.pairwise_cons]
      exact ⟨by decide, List.pairwise_singleton _ _⟩
    · show List.Pairwise (fun a b => a.code ≠ b.code)
        ([⟨1, "abc123", "https://example.com/a", 0, none, 0⟩,
          ⟨2, "zzzzzz", "https://example.com/b", 1, none, 3⟩] : List Row)
      rw [List.pairwise_cons]
      exact ⟨by decide, List.pairwise_singleton _ _⟩
  exact C10_frame dbTwoLinks hwf "abc123" "zzzzzz" "https://example.com/c"
    (by decide) 9

end UrlShort
